import Mathlib

/-!
Verification of the Deck & Turn Engine of the two-player card-matching game
(`cardgame.c` / `cardgame.h` / `main.c`).

The C data model is embedded shallowly:

* the C enums `Suit` and `Rank` are `int`-valued (`Club = 0 … Diamond = 3`,
  `Two = 0 … Ace = 12`), so suits and ranks are modelled as `Nat` with named
  abbreviations for the enum constants;
* `PlayingCard` is a structure of a suit and a rank;
* `DeckOfCards` keeps an ordered list of cards together with the `topCard`
  field; the C `size` field is always the length of the `cards` buffer, so it
  is represented by `cards.length`;
* `rand()` is modelled by an oracle `rand : Nat → Nat` giving the raw value
  returned by the `i`-th iteration of the Fisher–Yates loop;
* drawing from an empty deck is undefined behaviour in the C code, so the
  embedded `drawCard` (and every operation built on it) returns an `Option`.
-/

namespace CardGame

/-- Suits are the C enum values `Club = 0`, `Spade = 1`, `Heart = 2`,
`Diamond = 3`. -/
abbrev Suit := Nat

abbrev Club : Suit := 0
abbrev Spade : Suit := 1
abbrev Heart : Suit := 2
abbrev Diamond : Suit := 3

/-- Ranks are the C enum values `Two = 0`, `Three = 1`, …, `Ace = 12`. -/
abbrev Rank := Nat

abbrev Two : Rank := 0
abbrev Three : Rank := 1
abbrev Four : Rank := 2
abbrev Five : Rank := 3
abbrev Nine : Rank := 7
abbrev Ace : Rank := 12

/-- `PlayingCard` from `cardgame.h`: a suit together with a rank. -/
structure PlayingCard where
  suit : Suit
  rank : Rank
deriving DecidableEq, Repr

instance : Inhabited PlayingCard := ⟨⟨0, 0⟩⟩

/-- `DeckOfCards` from `cardgame.h`: the `cards` buffer together with the
`topCard` field.  The C `size` field always equals the length of the buffer,
so it is `cards.length` here. -/
structure DeckOfCards where
  cards : List PlayingCard
  topCard : PlayingCard
deriving DecidableEq, Repr

/-- The C `size` field of a deck. -/
def DeckOfCards.size (d : DeckOfCards) : Nat := d.cards.length

/-- `addCardToDeck`: appends `card` at index `size` (the end) and grows the
buffer by one. -/
def addCardToDeck (deck : DeckOfCards) (card : PlayingCard) : DeckOfCards :=
  { deck with cards := deck.cards ++ [card] }

/-- `drawCard`: removes and returns `cards[size-1]`, the last card.  Reading
`cards[-1]` of an empty deck is undefined behaviour in C, so the embedding
returns `none` there. -/
def drawCard (deck : DeckOfCards) : Option (PlayingCard × DeckOfCards) :=
  match deck.cards.getLast? with
  | none => none
  | some c => some (c, { deck with cards := deck.cards.dropLast })

/-- `canPlayCard`: a card may be played on `topCard` when the ranks or the
suits coincide. -/
def canPlayCard (card topCard : PlayingCard) : Bool :=
  card.rank == topCard.rank || card.suit == topCard.suit

/-- `initializeDeck`: starting from `{ NULL, 0, {0} }`, iterate over packs,
then suits `Club … Diamond`, then ranks `Two … Ace`, appending each card via
`addCardToDeck`. -/
def initializeDeck (numPacks : Nat) : DeckOfCards :=
  (List.range numPacks).foldl
    (fun d _ =>
      (List.range 4).foldl
        (fun d suit =>
          (List.range 13).foldl
            (fun d rank => addCardToDeck d ⟨suit, rank⟩) d) d)
    { cards := [], topCard := ⟨0, 0⟩ }

/-- Swap the entries at positions `i` and `j`; the identity when either index
is out of range (the shuffle loop only ever swaps in-range indices). -/
def swapAt (l : List PlayingCard) (i j : Nat) : List PlayingCard :=
  match l.get? i, l.get? j with
  | some a, some b => (l.set i b).set j a
  | _, _ => l

/-- The Fisher–Yates loop of `shuffleDeck`: for `i` from `size-1` down to `1`,
swap position `i` with position `rand i % (i+1)`.  `rand i` is the raw value
the `i`-th iteration obtained from the C `rand()`. -/
def fisherYates (rand : Nat → Nat) : List PlayingCard → Nat → List PlayingCard
  | l, 0 => l
  | l, i + 1 => fisherYates rand (swapAt l (i + 1) (rand (i + 1) % (i + 2))) i

/-- `shuffleDeck`, parametrised by the random oracle. -/
def shuffleDeck (rand : Nat → Nat) (deck : DeckOfCards) : DeckOfCards :=
  { deck with cards := fisherYates rand deck.cards (deck.cards.length - 1) }

/-- One bounded bubble pass of `customSort`'s inner loop: perform `m`
adjacent comparisons from the front, swapping when `cards[j].rank >
cards[j+1].rank`. -/
def bubblePass : Nat → List PlayingCard → List PlayingCard
  | 0, l => l
  | _, [] => []
  | _, [a] => [a]
  | m + 1, a :: b :: t =>
    if b.rank < a.rank then b :: bubblePass m (a :: t)
    else a :: bubblePass m (b :: t)

/-- The outer loop of `customSort`: the pass with inner bound `k+1` is
followed by passes with bounds `k`, `k-1`, …, `1`. -/
def sortLoop : Nat → List PlayingCard → List PlayingCard
  | 0, l => l
  | k + 1, l => sortLoop k (bubblePass (k + 1) l)

/-- `customSort`: bubble sort by rank; outer index `i` runs over
`0 … size-2`, the pass at `i` has inner bound `size - i - 1`. -/
def customSort (deck : DeckOfCards) : DeckOfCards :=
  { deck with cards := sortLoop (deck.cards.length - 1) deck.cards }

/-- Lines 180–187 of `takeTurn`: read `playedDeck->topCard`; when its rank is
`0` draw the reference card from the hidden deck, otherwise the reference
card is `topCard` itself.  Returns the reference card and the (possibly
shrunk) hidden deck. -/
def referenceStep (hiddenDeck playedDeck : DeckOfCards) :
    Option (PlayingCard × DeckOfCards) :=
  if playedDeck.topCard.rank = 0 then
    (drawCard hiddenDeck).map (fun p => (p.1, p.2))
  else
    some (playedDeck.topCard, hiddenDeck)

/-- Lines 189–195 of `takeTurn`: scan the hand front-to-back, stopping at the
first card that `canPlayCard` accepts; returns its index and the card, or
`none` when `matchIndex` stays `-1`. -/
def scanHand (top : PlayingCard) : List PlayingCard → Option (Nat × PlayingCard)
  | [] => none
  | c :: rest =>
    if canPlayCard c top then some (0, c)
    else (scanHand top rest).map (fun p => (p.1 + 1, p.2))

/-- Lines 197–217 of `takeTurn`: if the scan found a match, set
`playedDeck->topCard`, append the matched card to the played deck and remove
it from the hand by shifting the tail left; otherwise draw a card from the
hidden deck and append it to the hand.  Returns the updated
(hidden, player, played) decks. -/
def playOrDrawStep (hiddenDeck player playedDeck : DeckOfCards)
    (top : PlayingCard) :
    Option (DeckOfCards × DeckOfCards × DeckOfCards) :=
  match scanHand top player.cards with
  | some (i, c) =>
    some (hiddenDeck,
      { player with cards := player.cards.eraseIdx i },
      { playedDeck with cards := playedDeck.cards ++ [c], topCard := c })
  | none =>
    (drawCard hiddenDeck).map
      (fun p => (p.2, addCardToDeck player p.1, playedDeck))

/-- Lines 219–231 of `takeTurn`: when the hidden deck has become empty, copy
the played deck's cards into the hidden deck in order, zero the played deck's
size, reset `playedDeck->topCard.rank` to `0` (the suit is not touched) and
shuffle the hidden deck.  Returns the updated (hidden, played) decks. -/
def reshuffleStep (rand : Nat → Nat) (hiddenDeck playedDeck : DeckOfCards) :
    DeckOfCards × DeckOfCards :=
  if hiddenDeck.cards.length = 0 then
    (shuffleDeck rand { hiddenDeck with cards := playedDeck.cards },
      { playedDeck with
        cards := []
        topCard := { playedDeck.topCard with rank := 0 } })
  else
    (hiddenDeck, playedDeck)

/-- `takeTurn` (the `currentPlayer` argument only feeds the `printf` calls,
which the embedding omits): the reference step, then the play-or-draw step,
then the reshuffle step. -/
def takeTurn (rand : Nat → Nat)
    (hiddenDeck player playedDeck : DeckOfCards) :
    Option (DeckOfCards × DeckOfCards × DeckOfCards) :=
  match referenceStep hiddenDeck playedDeck with
  | none => none
  | some th =>
    match playOrDrawStep th.2 player playedDeck th.1 with
    | none => none
    | some t =>
      some ((reshuffleStep rand t.1 t.2.2).1, t.2.1,
        (reshuffleStep rand t.1 t.2.2).2)

/-- `isGameFinished`: true exactly when one of the players holds no cards. -/
def isGameFinished (player1 player2 : DeckOfCards) : Bool :=
  player1.cards.length == 0 || player2.cards.length == 0

/-- `PlayerTurn` from `cardgame.h`. -/
inductive PlayerTurn where
  | PlayerOne
  | PlayerTwo
deriving DecidableEq, Repr

/-- The full game state manipulated by `startGame`. -/
structure GameState where
  hiddenDeck : DeckOfCards
  player1 : DeckOfCards
  player2 : DeckOfCards
  playedDeck : DeckOfCards
  currentPlayer : PlayerTurn
deriving DecidableEq, Repr

/-- One iteration of the `startGame` loop: `takeTurn` on the current player's
hand, then toggle the player indicator. -/
def gameStep (rand : Nat → Nat) (s : GameState) : Option GameState :=
  match s.currentPlayer with
  | PlayerTurn.PlayerOne =>
    (takeTurn rand s.hiddenDeck s.player1 s.playedDeck).map
      (fun t => { s with
                  hiddenDeck := t.1
                  player1 := t.2.1
                  playedDeck := t.2.2
                  currentPlayer := PlayerTurn.PlayerTwo })
  | PlayerTurn.PlayerTwo =>
    (takeTurn rand s.hiddenDeck s.player2 s.playedDeck).map
      (fun t => { s with
                  hiddenDeck := t.1
                  player2 := t.2.1
                  playedDeck := t.2.2
                  currentPlayer := PlayerTurn.PlayerOne })

/-- Reachability by `takeTurn` steps, for any choice of random values at each
step. -/
def Reachable : GameState → GameState → Prop :=
  Relation.ReflTransGen (fun s s' => ∃ rand, gameStep rand s = some s')

/-- The 52 cards of one pack in the nested (suit, rank) order produced by the
two inner loops of `initializeDeck`. -/
def singlePack : List PlayingCard :=
  (List.range 4).flatMap
    (fun suit => (List.range 13).map (fun rank => ⟨suit, rank⟩))

/-- The `topCard` cache discipline on the played deck: an empty played deck
carries the rank-`0` sentinel, and a non-empty played deck's `topCard` is its
last (most recently appended) card. -/
def topCardInvariant (s : GameState) : Prop :=
  (s.playedDeck.cards = [] → s.playedDeck.topCard.rank = 0) ∧
  (s.playedDeck.cards ≠ [] →
    s.playedDeck.cards.getLast? = some s.playedDeck.topCard)

instance (s : GameState) : Decidable (topCardInvariant s) := by
  unfold topCardInvariant
  infer_instance

/-! ### Basic lemmas about `drawCard` and `addCardToDeck` -/

theorem drawCard_of_ne_nil (d : DeckOfCards) (h : d.cards ≠ []) :
    drawCard d = some (d.cards.getLast h, { d with cards := d.cards.dropLast }) := by
  unfold drawCard
  rw [List.getLast?_eq_getLast d.cards h]

theorem drawCard_eq_some {d : DeckOfCards} {c : PlayingCard} {d' : DeckOfCards}
    (h : drawCard d = some (c, d')) :
    ∃ hne : d.cards ≠ [],
      c = d.cards.getLast hne ∧ d' = { d with cards := d.cards.dropLast } := by
  unfold drawCard at h
  cases hl : d.cards.getLast? with
  | none => rw [hl] at h; exact absurd h (by simp)
  | some x =>
    rw [hl] at h
    have hne : d.cards ≠ [] := by
      intro hnil
      rw [hnil] at hl
      simp at hl
    obtain ⟨_, hx⟩ := List.mem_getLast?_eq_getLast hl
    refine ⟨hne, ?_, ?_⟩
    · cases h; exact hx
    · cases h; rfl

theorem drawCard_none_iff (d : DeckOfCards) :
    drawCard d = none ↔ d.cards = [] := by
  unfold drawCard
  cases hl : d.cards.getLast? with
  | none => simp [List.getLast?_eq_none_iff.mp hl]
  | some x =>
    have : d.cards ≠ [] := by
      intro hnil; rw [hnil] at hl; simp at hl
    simp [this]

/-- C9: for every non-empty deck, `drawCard` removes and returns the last
card and decreases the size by one, and `drawCard` followed by
`addCardToDeck` of that same card restores the deck's original size and
multiset of cards (in fact the exact card sequence). -/
theorem drawCard_addCard_roundTrip (d : DeckOfCards) (h : d.cards ≠ []) :
    ∃ c d', drawCard d = some (c, d') ∧
      d.cards.getLast? = some c ∧
      d'.size + 1 = d.size ∧
      (addCardToDeck d' c).size = d.size ∧
      (addCardToDeck d' c).cards = d.cards ∧
      ∀ x, (addCardToDeck d' c).cards.count x = d.cards.count x := by
  refine ⟨d.cards.getLast h, { d with cards := d.cards.dropLast },
    drawCard_of_ne_nil d h, List.getLast?_eq_getLast d.cards h, ?_, ?_, ?_, ?_⟩
  · show d.cards.dropLast.length + 1 = d.cards.length
    rw [List.length_dropLast]
    exact Nat.succ_pred_eq_of_pos (List.length_pos.mpr h)
  · show (d.cards.dropLast ++ [d.cards.getLast h]).length = d.cards.length
    rw [List.dropLast_append_getLast h]
  · exact List.dropLast_append_getLast h
  · intro x
    rw [show (addCardToDeck { d with cards := d.cards.dropLast }
          (d.cards.getLast h)).cards = d.cards from List.dropLast_append_getLast h]

/-- Witness for C9 at the concrete two-card deck `[5♣, 4♠]`. -/
theorem drawCard_addCard_roundTrip_witness :
    (([⟨Club, Five⟩, ⟨Spade, Four⟩] : List PlayingCard) ≠ []) ∧
    (∃ c d',
      drawCard ⟨[⟨Club, Five⟩, ⟨Spade, Four⟩], ⟨0, 0⟩⟩ = some (c, d') ∧
      ([⟨Club, Five⟩, ⟨Spade, Four⟩] : List PlayingCard).getLast? = some c ∧
      d'.size + 1 = (DeckOfCards.mk [⟨Club, Five⟩, ⟨Spade, Four⟩] ⟨0, 0⟩).size ∧
      (addCardToDeck d' c).size =
        (DeckOfCards.mk [⟨Club, Five⟩, ⟨Spade, Four⟩] ⟨0, 0⟩).size ∧
      (addCardToDeck d' c).cards = [⟨Club, Five⟩, ⟨Spade, Four⟩] ∧
      ∀ x, (addCardToDeck d' c).cards.count x =
        ([⟨Club, Five⟩, ⟨Spade, Four⟩] : List PlayingCard).count x) :=
  ⟨by decide,
    drawCard_addCard_roundTrip ⟨[⟨Club, Five⟩, ⟨Spade, Four⟩], ⟨0, 0⟩⟩ (by decide)⟩

/-! ### `initializeDeck` -/

theorem foldl_addCard (f : Nat → PlayingCard) :
    ∀ (xs : List Nat) (d : DeckOfCards),
      xs.foldl (fun d x => addCardToDeck d (f x)) d
        = { d with cards := d.cards ++ xs.map f } := by
  intro xs
  induction xs with
  | nil => intro d; simp
  | cons x xs ih =>
    intro d
    rw [List.foldl_cons, ih]
    simp [addCardToDeck, List.append_assoc]

theorem foldl_suits :
    ∀ (xs : List Nat) (d : DeckOfCards),
      xs.foldl
        (fun d suit =>
          (List.range 13).foldl (fun d rank => addCardToDeck d ⟨suit, rank⟩) d) d
        = { d with cards := (d.cards ++
            xs.flatMap (fun s => (List.range 13).map (fun r => ⟨s, r⟩))) } := by
  intro xs
  induction xs with
  | nil => intro d; simp
  | cons x xs ih =>
    intro d
    rw [List.foldl_cons, foldl_addCard, ih]
    simp [List.append_assoc]

theorem foldl_packs :
    ∀ (xs : List Nat) (d : DeckOfCards),
      xs.foldl
        (fun d _ =>
          (List.range 4).foldl
            (fun d suit =>
              (List.range 13).foldl
                (fun d rank => addCardToDeck d ⟨suit, rank⟩) d) d) d
        = { d with cards := d.cards ++ xs.flatMap (fun _ => singlePack) } := by
  intro xs
  induction xs with
  | nil => intro d; simp
  | cons x xs ih =>
    intro d
    rw [List.foldl_cons, foldl_suits, ih]
    simp [singlePack, List.append_assoc]

theorem initializeDeck_cards (n : Nat) :
    (initializeDeck n).cards = (List.range n).flatMap (fun _ => singlePack) := by
  unfold initializeDeck
  rw [foldl_packs]
  simp

theorem count_singlePack :
    ∀ s, s < 4 → ∀ r, r < 13 →
      singlePack.count (⟨s, r⟩ : PlayingCard) = 1 := by
  decide

theorem count_repeatPack (n : Nat) (c : PlayingCard) :
    ((List.range n).flatMap (fun _ => singlePack)).count c
      = n * singlePack.count c := by
  induction n with
  | zero => simp
  | succ m ih =>
    rw [List.range_succ, List.flatMap_append, List.count_append, ih]
    simp [Nat.succ_mul]

theorem length_singlePack : singlePack.length = 52 := by
  decide

theorem length_repeatPack (n : Nat) :
    ((List.range n).flatMap (fun _ => singlePack)).length = 52 * n := by
  induction n with
  | zero => simp
  | succ m ih =>
    rw [List.range_succ, List.flatMap_append, List.length_append, ih]
    simp [length_singlePack, Nat.mul_succ]

/-- C6: for every `packCount ∈ [1,10]`, `initializeDeck packCount` yields
exactly `52 × packCount` cards, each of the 52 (suit, rank) pairs appearing
exactly `packCount` times, in the deterministic nested (pack, suit, rank)
order. -/
theorem initializeDeck_spec (numPacks : Nat)
    (h1 : 1 ≤ numPacks) (h2 : numPacks ≤ 10) :
    (initializeDeck numPacks).size = 52 * numPacks ∧
    (∀ s, s < 4 → ∀ r, r < 13 →
      (initializeDeck numPacks).cards.count (⟨s, r⟩ : PlayingCard) = numPacks) ∧
    (initializeDeck numPacks).cards
      = (List.range numPacks).flatMap (fun _ => singlePack) := by
  refine ⟨?_, ?_, initializeDeck_cards numPacks⟩
  · show (initializeDeck numPacks).cards.length = 52 * numPacks
    rw [initializeDeck_cards, length_repeatPack]
  · intro s hs r hr
    rw [initializeDeck_cards, count_repeatPack, count_singlePack s hs r hr,
      Nat.mul_one]

/-- Witness for C6 at `packCount = 2`. -/
theorem initializeDeck_spec_witness :
    1 ≤ 2 ∧ 2 ≤ 10 ∧
    ((initializeDeck 2).size = 52 * 2 ∧
      (∀ s, s < 4 → ∀ r, r < 13 →
        (initializeDeck 2).cards.count (⟨s, r⟩ : PlayingCard) = 2) ∧
      (initializeDeck 2).cards
        = (List.range 2).flatMap (fun _ => singlePack)) :=
  ⟨by decide, by decide, initializeDeck_spec 2 (by decide) (by decide)⟩

/-! ### `shuffleDeck` is a permutation -/

theorem cons_get_set_perm {α : Type _} :
    ∀ (t : List α) (k : Nat) (h : k < t.length) (x : α),
      List.Perm (t.get ⟨k, h⟩ :: t.set k x) (x :: t) := by
  intro t
  induction t with
  | nil => intro k h x; exact absurd h (by simp)
  | cons a t ih =>
    intro k h x
    cases k with
    | zero =>
      show List.Perm (a :: x :: t) (x :: a :: t)
      exact List.Perm.swap x a t
    | succ m =>
      have hm : m < t.length := Nat.lt_of_succ_lt_succ h
      show List.Perm (t.get ⟨m, hm⟩ :: a :: t.set m x) (x :: a :: t)
      exact (List.Perm.swap a _ _).trans (((ih m hm x).cons a).trans
        (List.Perm.swap x a t))

theorem set_set_perm {α : Type _} :
    ∀ (l : List α) (i j : Nat) (hi : i < l.length) (hj : j < l.length),
      List.Perm ((l.set i (l.get ⟨j, hj⟩)).set j (l.get ⟨i, hi⟩)) l := by
  intro l
  induction l with
  | nil => intro i j hi _; exact absurd hi (by simp)
  | cons a t ih =>
    intro i j hi hj
    cases i with
    | zero =>
      cases j with
      | zero => exact List.Perm.refl _
      | succ n =>
        have hn : n < t.length := Nat.lt_of_succ_lt_succ hj
        show List.Perm (t.get ⟨n, hn⟩ :: t.set n a) (a :: t)
        exact cons_get_set_perm t n hn a
    | succ m =>
      have hm : m < t.length := Nat.lt_of_succ_lt_succ hi
      cases j with
      | zero =>
        show List.Perm (t.get ⟨m, hm⟩ :: t.set m a) (a :: t)
        exact cons_get_set_perm t m hm a
      | succ n =>
        have hn : n < t.length := Nat.lt_of_succ_lt_succ hj
        show List.Perm
          (a :: (t.set m (t.get ⟨n, hn⟩)).set n (t.get ⟨m, hm⟩)) (a :: t)
        exact (ih m n hm hn).cons a

theorem swapAt_perm (l : List PlayingCard) (i j : Nat) :
    List.Perm (swapAt l i j) l := by
  unfold swapAt
  cases hi : l.get? i with
  | none => exact List.Perm.refl l
  | some a =>
    cases hj : l.get? j with
    | none => exact List.Perm.refl l
    | some b =>
      obtain ⟨hi', ha⟩ := List.get?_eq_some.mp hi
      obtain ⟨hj', hb⟩ := List.get?_eq_some.mp hj
      show List.Perm ((l.set i b).set j a) l
      rw [← ha, ← hb]
      exact set_set_perm l i j hi' hj'

theorem fisherYates_perm (rand : Nat → Nat) :
    ∀ (n : Nat) (l : List PlayingCard), List.Perm (fisherYates rand l n) l := by
  intro n
  induction n with
  | zero => intro l; exact List.Perm.refl l
  | succ i ih =>
    intro l
    exact (ih _).trans (swapAt_perm l (i + 1) (rand (i + 1) % (i + 2)))

/-- C7: for every deck and every sequence of random choices, `shuffleDeck` is
a permutation of the deck's cards: the size and the multiplicity of every
(suit, rank) value are unchanged. -/
theorem shuffleDeck_perm (rand : Nat → Nat) (deck : DeckOfCards) :
    List.Perm (shuffleDeck rand deck).cards deck.cards ∧
    (shuffleDeck rand deck).size = deck.size ∧
    ∀ c : PlayingCard,
      (shuffleDeck rand deck).cards.count c = deck.cards.count c := by
  have hperm : List.Perm (shuffleDeck rand deck).cards deck.cards :=
    fisherYates_perm rand (deck.cards.length - 1) deck.cards
  exact ⟨hperm, hperm.length_eq, fun c => hperm.count_eq c⟩

/-! ### `customSort` (bubble sort by rank) -/

theorem bubblePass_zero (l : List PlayingCard) : bubblePass 0 l = l := by
  match l with
  | [] => rfl
  | [a] => rfl
  | a :: b :: t => rfl

theorem bubblePass_perm :
    ∀ (m : Nat) (l : List PlayingCard), List.Perm (bubblePass m l) l := by
  intro m
  induction m with
  | zero =>
    intro l
    rw [bubblePass_zero]
  | succ m ih =>
    intro l
    match l with
    | [] => exact List.Perm.refl _
    | [a] => exact List.Perm.refl _
    | a :: b :: t =>
      show List.Perm
        (if b.rank < a.rank then b :: bubblePass m (a :: t)
          else a :: bubblePass m (b :: t)) (a :: b :: t)
      by_cases h : b.rank < a.rank
      · rw [if_pos h]
        exact ((ih (a :: t)).cons b).trans (List.Perm.swap a b t)
      · rw [if_neg h]
        exact (ih (b :: t)).cons a

theorem bubblePass_append :
    ∀ (m : Nat) (l1 l2 : List PlayingCard), l1.length = m + 1 →
      bubblePass m (l1 ++ l2) = bubblePass m l1 ++ l2 := by
  intro m
  induction m with
  | zero =>
    intro l1 l2 h
    match l1, h with
    | [a], _ => rw [bubblePass_zero, bubblePass_zero]
  | succ m ih =>
    intro l1 l2 h
    match l1, h with
    | a :: b :: t, h =>
      have ht : (a :: t).length = m + 1 := by
        simpa using Nat.succ_injective (by simpa using h)
      have ht' : (b :: t).length = m + 1 := ht
      show (if b.rank < a.rank then b :: bubblePass m (a :: (t ++ l2))
          else a :: bubblePass m (b :: (t ++ l2)))
        = (if b.rank < a.rank then b :: bubblePass m (a :: t)
          else a :: bubblePass m (b :: t)) ++ l2
      by_cases hab : b.rank < a.rank
      · rw [if_pos hab, if_pos hab]
        rw [show a :: (t ++ l2) = (a :: t) ++ l2 from rfl, ih (a :: t) l2 ht]
        rfl
      · rw [if_neg hab, if_neg hab]
        rw [show b :: (t ++ l2) = (b :: t) ++ l2 from rfl, ih (b :: t) l2 ht']
        rfl

theorem bubblePass_max :
    ∀ (m : Nat) (l : List PlayingCard), l ≠ [] → l.length ≤ m + 1 →
      ∃ l' M, bubblePass m l = l' ++ [M] ∧ ∀ x ∈ l, x.rank ≤ M.rank := by
  intro m
  induction m with
  | zero =>
    intro l hne hlen
    match l, hne, hlen with
    | [a], _, _ => exact ⟨[], a, rfl, by simp⟩
  | succ m ih =>
    intro l hne hlen
    match l with
    | [a] => exact ⟨[], a, rfl, by simp⟩
    | a :: b :: t =>
      have hlen' : (a :: t).length ≤ m + 1 := by
        simpa using Nat.le_of_succ_le_succ (by simpa using hlen)
      by_cases hab : b.rank < a.rank
      · obtain ⟨l', M, he, hM⟩ := ih (a :: t) (by simp) hlen'
        refine ⟨b :: l', M, ?_, ?_⟩
        · show (if b.rank < a.rank then b :: bubblePass m (a :: t)
              else a :: bubblePass m (b :: t)) = (b :: l') ++ [M]
          rw [if_pos hab, he]
          rfl
        · intro x hx
          rcases List.mem_cons.mp hx with rfl | hx'
          · exact hM x (List.mem_cons_self x t)
          rcases List.mem_cons.mp hx' with rfl | hx''
          · exact Nat.le_trans (Nat.le_of_lt hab) (hM a (List.mem_cons_self a t))
          · exact hM x (List.mem_cons_of_mem a hx'')
      · obtain ⟨l', M, he, hM⟩ := ih (b :: t) (by simp) hlen'
        refine ⟨a :: l', M, ?_, ?_⟩
        · show (if b.rank < a.rank then b :: bubblePass m (a :: t)
              else a :: bubblePass m (b :: t)) = (a :: l') ++ [M]
          rw [if_neg hab, he]
          rfl
        · intro x hx
          rcases List.mem_cons.mp hx with rfl | hx'
          · exact Nat.le_trans (Nat.le_of_not_lt hab)
              (hM b (List.mem_cons_self b t))
          · exact hM x hx'

theorem bubblePass_of_sorted :
    ∀ (m : Nat) (l : List PlayingCard),
      List.Chain' (fun c d => c.rank ≤ d.rank) l → bubblePass m l = l := by
  intro m
  induction m with
  | zero => intro l _; exact bubblePass_zero l
  | succ m ih =>
    intro l hl
    match l with
    | [] => rfl
    | [a] => rfl
    | a :: b :: t =>
      have hab : a.rank ≤ b.rank := (List.chain'_cons.mp hl).1
      have ht : List.Chain' (fun c d => c.rank ≤ d.rank) (b :: t) :=
        (List.chain'_cons.mp hl).2
      show (if b.rank < a.rank then b :: bubblePass m (a :: t)
          else a :: bubblePass m (b :: t)) = a :: b :: t
      rw [if_neg (Nat.not_lt.mpr hab), ih (b :: t) ht]

theorem sortLoop_of_sorted :
    ∀ (k : Nat) (l : List PlayingCard),
      List.Chain' (fun c d => c.rank ≤ d.rank) l → sortLoop k l = l := by
  intro k
  induction k with
  | zero => intro l _; rfl
  | succ k ih =>
    intro l hl
    show sortLoop k (bubblePass (k + 1) l) = l
    rw [bubblePass_of_sorted (k + 1) l hl, ih l hl]

theorem sortLoop_sorted_aux :
    ∀ (k : Nat) (l tl : List PlayingCard), l.length = k + 1 →
      List.Chain' (fun c d => c.rank ≤ d.rank) tl →
      (∀ x ∈ l, ∀ y ∈ tl, x.rank ≤ y.rank) →
      List.Chain' (fun c d => c.rank ≤ d.rank) (sortLoop k (l ++ tl)) ∧
      List.Perm (sortLoop k (l ++ tl)) (l ++ tl) := by
  intro k
  induction k with
  | zero =>
    intro l tl hlen htl hle
    match l, hlen with
    | [a], _ =>
      refine ⟨?_, List.Perm.refl _⟩
      show List.Chain' (fun c d => c.rank ≤ d.rank) (a :: tl)
      exact List.chain'_cons'.mpr
        ⟨fun y hy => hle a (by simp) y (List.mem_of_mem_head? hy), htl⟩
  | succ k ih =>
    intro l tl hlen htl hle
    show List.Chain' (fun c d => c.rank ≤ d.rank)
        (sortLoop k (bubblePass (k + 1) (l ++ tl))) ∧
      List.Perm (sortLoop k (bubblePass (k + 1) (l ++ tl))) (l ++ tl)
    rw [bubblePass_append (k + 1) l tl hlen]
    have hne : l ≠ [] := by
      intro h
      rw [h] at hlen
      exact absurd hlen (by simp)
    obtain ⟨l', M, he, hM⟩ :=
      bubblePass_max (k + 1) l hne (Nat.le_of_eq hlen)
    have hperm : List.Perm (l' ++ [M]) l := by
      rw [← he]
      exact bubblePass_perm (k + 1) l
    have hl' : l'.length = k + 1 := by
      have := hperm.length_eq
      rw [List.length_append, List.length_singleton, hlen] at this
      omega
    have hMl : M ∈ l := hperm.mem_iff.mp (by simp)
    rw [he, List.append_assoc, List.singleton_append]
    have hres := ih l' (M :: tl) hl'
      (List.chain'_cons'.mpr
        ⟨fun y hy => hle M hMl y (List.mem_of_mem_head? hy), htl⟩)
      (by
        intro x hx y hy
        have hxl : x ∈ l := hperm.mem_iff.mp (List.mem_append_left [M] hx)
        rcases List.mem_cons.mp hy with rfl | hy'
        · exact hM x hxl
        · exact hle x hxl y hy')
    refine ⟨hres.1, hres.2.trans ?_⟩
    have hsplit : l' ++ M :: tl = (l' ++ [M]) ++ tl := by
      rw [List.append_assoc, List.singleton_append]
    rw [hsplit]
    exact hperm.append_right tl

theorem customSort_cards_sorted (deck : DeckOfCards) :
    List.Chain' (fun c d => c.rank ≤ d.rank) (customSort deck).cards ∧
    List.Perm (customSort deck).cards deck.cards := by
  show List.Chain' (fun c d => c.rank ≤ d.rank)
      (sortLoop (deck.cards.length - 1) deck.cards) ∧
    List.Perm (sortLoop (deck.cards.length - 1) deck.cards) deck.cards
  cases hc : deck.cards with
  | nil => exact ⟨List.chain'_nil, List.Perm.refl _⟩
  | cons a t =>
    have h := sortLoop_sorted_aux t.length (a :: t) [] (by simp)
      List.chain'_nil (by simp)
    simpa using h

/-- C8: `customSort` produces a sequence in which every adjacent pair of
cards has non-decreasing rank, and it is idempotent: sorting an
already-sorted deck changes nothing. -/
theorem customSort_spec (deck : DeckOfCards) :
    (∀ i (h : i + 1 < (customSort deck).cards.length),
      ((customSort deck).cards.get ⟨i, Nat.lt_of_succ_lt h⟩).rank ≤
        ((customSort deck).cards.get ⟨i + 1, h⟩).rank) ∧
    customSort (customSort deck) = customSort deck := by
  obtain ⟨hsort, _⟩ := customSort_cards_sorted deck
  constructor
  · intro i h
    exact List.chain'_iff_get.mp hsort i (by omega)
  · have h2 : sortLoop ((customSort deck).cards.length - 1)
        (customSort deck).cards = (customSort deck).cards :=
      sortLoop_of_sorted _ _ hsort
    show { customSort deck with
      cards := sortLoop ((customSort deck).cards.length - 1)
        (customSort deck).cards } = customSort deck
    rw [h2]

/-- Witness for C8 on the concrete deck `[5♣, 3♠]`: the sorted deck's first
two ranks are ordered and re-sorting it changes nothing. -/
theorem customSort_spec_witness :
    (0 + 1 < (customSort ⟨[⟨Club, Five⟩, ⟨Spade, Three⟩], ⟨0, 0⟩⟩).cards.length)
    ∧
    ((customSort ⟨[⟨Club, Five⟩, ⟨Spade, Three⟩], ⟨0, 0⟩⟩).cards.get
        ⟨0, by decide⟩).rank ≤
      ((customSort ⟨[⟨Club, Five⟩, ⟨Spade, Three⟩], ⟨0, 0⟩⟩).cards.get
        ⟨0 + 1, by decide⟩).rank ∧
    customSort (customSort ⟨[⟨Club, Five⟩, ⟨Spade, Three⟩], ⟨0, 0⟩⟩)
      = customSort ⟨[⟨Club, Five⟩, ⟨Spade, Three⟩], ⟨0, 0⟩⟩ :=
  ⟨by decide,
    (customSort_spec ⟨[⟨Club, Five⟩, ⟨Spade, Three⟩], ⟨0, 0⟩⟩).1 0 (by decide),
    (customSort_spec ⟨[⟨Club, Five⟩, ⟨Spade, Three⟩], ⟨0, 0⟩⟩).2⟩

/-! ### The hand scan of `takeTurn` -/

theorem scanHand_none_iff (top : PlayingCard) :
    ∀ hand : List PlayingCard,
      scanHand top hand = none ↔ ∀ c ∈ hand, canPlayCard c top = false := by
  intro hand
  induction hand with
  | nil => simp [scanHand]
  | cons d rest ih =>
    rw [scanHand]
    by_cases hd : canPlayCard d top = true
    · rw [if_pos hd]
      simp [hd]
    · have hd' : canPlayCard d top = false := by simpa using hd
      rw [if_neg hd]
      simp [hd', ih]

theorem scanHand_some_spec (top : PlayingCard) :
    ∀ (hand : List PlayingCard) (i : Nat) (c : PlayingCard),
      scanHand top hand = some (i, c) →
      hand.get? i = some c ∧ canPlayCard c top = true ∧
        ∀ x ∈ hand.take i, canPlayCard x top = false := by
  intro hand
  induction hand with
  | nil => intro i c h; exact absurd h (by simp [scanHand])
  | cons d rest ih =>
    intro i c h
    by_cases hd : canPlayCard d top
    · rw [scanHand, if_pos hd] at h
      obtain ⟨rfl, rfl⟩ : i = 0 ∧ d = c := by
        constructor <;> (cases h; rfl)
      exact ⟨rfl, hd, by simp⟩
    · rw [scanHand, if_neg hd] at h
      cases hs : scanHand top rest with
      | none => rw [hs] at h; exact absurd h (by simp)
      | some p =>
        rw [hs] at h
        obtain ⟨hi, rfl⟩ : i = p.1 + 1 ∧ p.2 = c := by
          constructor <;> (cases h; rfl)
        subst hi
        obtain ⟨h1, h2, h3⟩ := ih p.1 p.2 (by rw [hs])
        refine ⟨h1, h2, ?_⟩
        intro x hx
        rw [List.take_succ_cons] at hx
        rcases List.mem_cons.mp hx with rfl | hx'
        · exact Bool.not_eq_true _ ▸ hd
        · exact h3 x hx'

theorem scanHand_eq_of_first (top : PlayingCard) :
    ∀ (hand : List PlayingCard) (i : Nat) (hi : i < hand.length),
      canPlayCard (hand.get ⟨i, hi⟩) top = true →
      (∀ x ∈ hand.take i, canPlayCard x top = false) →
      scanHand top hand = some (i, hand.get ⟨i, hi⟩) := by
  intro hand
  induction hand with
  | nil => intro i hi; exact absurd hi (by simp)
  | cons d rest ih =>
    intro i hi hplay hbefore
    cases i with
    | zero =>
      have h0 : canPlayCard d top = true := hplay
      rw [scanHand, if_pos h0]
      exact rfl
    | succ j =>
      have hd : canPlayCard d top = false := by
        apply hbefore
        rw [List.take_succ_cons]
        exact List.mem_cons_self d _
      have hj : j < rest.length := Nat.lt_of_succ_lt_succ hi
      rw [scanHand, if_neg (by rw [hd]; exact Bool.false_ne_true)]
      rw [ih j hj hplay (by
        intro x hx
        exact hbefore x (by rw [List.take_succ_cons]; exact List.mem_cons_of_mem d hx))]
      rfl

/-- C3: within a `takeTurn` call (lines 189–217), the hand is scanned
front-to-back for the first card matching the reference card by rank or
suit; a match at index `i` is removed from the hand preserving the order of
the remaining cards, appended at the end of the played deck, and becomes the
new `topCard`; with no match, one card is drawn from the hidden deck and
appended to the hand, the played deck unchanged. -/
theorem playOrDrawStep_spec (hidden player played : DeckOfCards)
    (top : PlayingCard) :
    (∀ i (hi : i < player.cards.length),
      canPlayCard (player.cards.get ⟨i, hi⟩) top = true →
      (∀ x ∈ player.cards.take i, canPlayCard x top = false) →
      playOrDrawStep hidden player played top =
        some (hidden,
          { player with
            cards := player.cards.take i ++ player.cards.drop (i + 1) },
          { played with
            cards := played.cards ++ [player.cards.get ⟨i, hi⟩]
            topCard := player.cards.get ⟨i, hi⟩ })) ∧
    ((∀ c ∈ player.cards, canPlayCard c top = false) →
      ∀ c hidden', drawCard hidden = some (c, hidden') →
        playOrDrawStep hidden player played top =
          some (hidden', addCardToDeck player c, played)) := by
  constructor
  · intro i hi hplay hbefore
    unfold playOrDrawStep
    rw [scanHand_eq_of_first top player.cards i hi hplay hbefore]
    show some (hidden,
        { player with cards := player.cards.eraseIdx i },
        { played with
          cards := played.cards ++ [player.cards.get ⟨i, hi⟩]
          topCard := player.cards.get ⟨i, hi⟩ }) = _
    rw [List.eraseIdx_eq_take_drop_succ]
  · intro hnone c hidden' hdraw
    unfold playOrDrawStep
    rw [(scanHand_none_iff top player.cards).mpr hnone, hdraw]
    rfl

/-- Witness for C3: the two scenario checks from the specification.  With
hand `[2♣, 5♠]` and top card `5♥` the first match is at index 1 and `5♠` is
played; with the same hand and top card `3♦` there is no match and the card
`9♣` is drawn from the hidden deck into the hand. -/
theorem playOrDrawStep_spec_witness :
    (canPlayCard (([⟨Club, Two⟩, ⟨Spade, Five⟩] :
        List PlayingCard).get ⟨1, by decide⟩) ⟨Heart, Five⟩ = true ∧
      playOrDrawStep ⟨[⟨Spade, Ace⟩], ⟨0, 0⟩⟩
          ⟨[⟨Club, Two⟩, ⟨Spade, Five⟩], ⟨0, 0⟩⟩
          ⟨[⟨Heart, Five⟩], ⟨Heart, Five⟩⟩ ⟨Heart, Five⟩ =
        some (⟨[⟨Spade, Ace⟩], ⟨0, 0⟩⟩,
          ⟨[⟨Club, Two⟩], ⟨0, 0⟩⟩,
          ⟨[⟨Heart, Five⟩, ⟨Spade, Five⟩], ⟨Spade, Five⟩⟩)) ∧
    (playOrDrawStep ⟨[⟨Spade, Ace⟩, ⟨Club, Nine⟩], ⟨0, 0⟩⟩
        ⟨[⟨Club, Two⟩, ⟨Spade, Five⟩], ⟨0, 0⟩⟩
        ⟨[⟨Diamond, Three⟩], ⟨Diamond, Three⟩⟩ ⟨Diamond, Three⟩ =
      some (⟨[⟨Spade, Ace⟩], ⟨0, 0⟩⟩,
        ⟨[⟨Club, Two⟩, ⟨Spade, Five⟩, ⟨Club, Nine⟩], ⟨0, 0⟩⟩,
        ⟨[⟨Diamond, Three⟩], ⟨Diamond, Three⟩⟩)) := by
  refine ⟨⟨by decide, ?_⟩, ?_⟩
  · have h := (playOrDrawStep_spec ⟨[⟨Spade, Ace⟩], ⟨0, 0⟩⟩
      ⟨[⟨Club, Two⟩, ⟨Spade, Five⟩], ⟨0, 0⟩⟩
      ⟨[⟨Heart, Five⟩], ⟨Heart, Five⟩⟩ ⟨Heart, Five⟩).1 1 (by decide)
      (by decide) (by decide)
    exact h
  · have h := (playOrDrawStep_spec ⟨[⟨Spade, Ace⟩, ⟨Club, Nine⟩], ⟨0, 0⟩⟩
      ⟨[⟨Club, Two⟩, ⟨Spade, Five⟩], ⟨0, 0⟩⟩
      ⟨[⟨Diamond, Three⟩], ⟨Diamond, Three⟩⟩ ⟨Diamond, Three⟩).2
      (by decide) ⟨Club, Nine⟩ ⟨[⟨Spade, Ace⟩], ⟨0, 0⟩⟩ (by decide)
    exact h

/-! ### Decomposing a successful `takeTurn` call -/

theorem takeTurn_destruct {rand : Nat → Nat} {h p d h' p' d' : DeckOfCards}
    (ht : takeTurn rand h p d = some (h', p', d')) :
    ∃ top h1 h2 p2 d2,
      referenceStep h d = some (top, h1) ∧
      playOrDrawStep h1 p d top = some (h2, p2, d2) ∧
      h' = (reshuffleStep rand h2 d2).1 ∧
      p' = p2 ∧
      d' = (reshuffleStep rand h2 d2).2 := by
  unfold takeTurn at ht
  cases href : referenceStep h d with
  | none => rw [href] at ht; exact absurd ht (by simp)
  | some th =>
    rw [href] at ht
    have ht2 : (match playOrDrawStep th.2 p d th.1 with
        | none => none
        | some t =>
          some ((reshuffleStep rand t.1 t.2.2).1, t.2.1,
            (reshuffleStep rand t.1 t.2.2).2)) = some (h', p', d') := ht
    cases hpd : playOrDrawStep th.2 p d th.1 with
    | none => rw [hpd] at ht2; exact absurd ht2 (by simp)
    | some t3 =>
      rw [hpd] at ht2
      have ht3 : ((reshuffleStep rand t3.1 t3.2.2).1, t3.2.1,
          (reshuffleStep rand t3.1 t3.2.2).2) = (h', p', d') :=
        Option.some.inj ht2
      refine ⟨th.1, th.2, t3.1, t3.2.1, t3.2.2, rfl, ?_, ?_, ?_, ?_⟩
      · exact hpd
      · exact (congrArg (fun x => x.1) ht3).symm
      · exact (congrArg (fun x => x.2.1) ht3).symm
      · exact (congrArg (fun x => x.2.2) ht3).symm

theorem referenceStep_not_sentinel {h d : DeckOfCards}
    (hs : d.topCard.rank ≠ 0) :
    referenceStep h d = some (d.topCard, h) := by
  unfold referenceStep
  rw [if_neg hs]

theorem referenceStep_sizes {h d : DeckOfCards} {top : PlayingCard}
    {h1 : DeckOfCards} (href : referenceStep h d = some (top, h1)) :
    (d.topCard.rank ≠ 0 → h1 = h ∧ top = d.topCard) ∧
    (d.topCard.rank = 0 → h1.size + 1 = h.size) := by
  unfold referenceStep at href
  by_cases hs : d.topCard.rank = 0
  · rw [if_pos hs] at href
    refine ⟨fun hc => absurd hs hc, fun _ => ?_⟩
    cases hd : drawCard h with
    | none => rw [hd] at href; exact absurd href (by simp)
    | some ch =>
      rw [hd] at href
      obtain ⟨hne, _, hh1⟩ := drawCard_eq_some hd
      have : h1 = ch.2 := by
        cases href
        rfl
      rw [this, hh1]
      show h.cards.dropLast.length + 1 = h.cards.length
      rw [List.length_dropLast]
      exact Nat.succ_pred_eq_of_pos (List.length_pos.mpr hne)
  · rw [if_neg hs] at href
    refine ⟨fun _ => ?_, fun hc => absurd hc hs⟩
    cases href
    exact ⟨rfl, rfl⟩

theorem playOrDrawStep_sizes {h p d : DeckOfCards} {top : PlayingCard}
    {h2 p2 d2 : DeckOfCards}
    (hpd : playOrDrawStep h p d top = some (h2, p2, d2)) :
    h2.size + p2.size + d2.size = h.size + p.size + d.size := by
  unfold playOrDrawStep at hpd
  cases hs : scanHand top p.cards with
  | some ic =>
    rw [hs] at hpd
    obtain ⟨hget, _, _⟩ := scanHand_some_spec top p.cards ic.1 ic.2 (by rw [hs])
    have hlt : ic.1 < p.cards.length := by
      have := List.get?_mem hget
      exact (List.get?_eq_some.mp hget).1
    obtain ⟨e1, e2, e3⟩ :
        h2 = h ∧ p2 = { p with cards := p.cards.eraseIdx ic.1 } ∧
          d2 = { d with cards := d.cards ++ [ic.2], topCard := ic.2 } := by
      refine ⟨?_, ?_, ?_⟩ <;> (cases hpd; rfl)
    rw [e1, e2, e3]
    show h.size + (p.cards.eraseIdx ic.1).length + (d.cards ++ [ic.2]).length
      = h.size + p.cards.length + d.cards.length
    rw [List.length_eraseIdx_of_lt hlt, List.length_append]
    simp
    omega
  | none =>
    rw [hs] at hpd
    cases hd : drawCard h with
    | none => rw [hd] at hpd; exact absurd hpd (by simp)
    | some ch =>
      rw [hd] at hpd
      obtain ⟨hne, _, hh2⟩ := drawCard_eq_some hd
      obtain ⟨e1, e2, e3⟩ :
          h2 = ch.2 ∧ p2 = addCardToDeck p ch.1 ∧ d2 = d := by
        refine ⟨?_, ?_, ?_⟩ <;> (cases hpd; rfl)
      rw [e1, e2, e3, hh2]
      show h.cards.dropLast.length + (p.cards ++ [ch.1]).length + d.size
        = h.cards.length + p.cards.length + d.size
      rw [List.length_dropLast, List.length_append]
      have := Nat.succ_pred_eq_of_pos (List.length_pos.mpr hne)
      simp
      omega

theorem reshuffleStep_sizes (rand : Nat → Nat) (h d : DeckOfCards) :
    (reshuffleStep rand h d).1.size + (reshuffleStep rand h d).2.size
      = h.size + d.size := by
  unfold reshuffleStep
  by_cases he : h.cards.length = 0
  · rw [if_pos he]
    show (shuffleDeck rand { h with cards := d.cards }).cards.length + 0
      = h.cards.length + d.cards.length
    have := (fisherYates_perm rand (d.cards.length - 1) d.cards).length_eq
    unfold shuffleDeck
    simpa [he] using this
  · rw [if_neg he]

/-! ### Card conservation across `takeTurn` (C2) and the sentinel bug (C1) -/

/-- C2 (counterexample): `takeTurn` does not conserve the total card count.
With an empty discard pile (sentinel top card), a hidden deck `[9♣, 3♥]` and
hand `[5♥]`, the call succeeds but the three piles end with 2 cards in total
instead of 3: the reference card `3♥` drawn from the hidden deck is consumed
without ever being stored in any pile. -/
theorem takeTurn_not_conserving :
    ∃ out, takeTurn (fun _ => 0) ⟨[⟨Club, Nine⟩, ⟨Heart, Three⟩], ⟨0, 0⟩⟩
        ⟨[⟨Heart, Five⟩], ⟨0, 0⟩⟩ ⟨[], ⟨0, 0⟩⟩ = some out ∧
      out.1.size + out.2.1.size + out.2.2.size ≠
        (DeckOfCards.mk [⟨Club, Nine⟩, ⟨Heart, Three⟩] ⟨0, 0⟩).size +
        (DeckOfCards.mk [⟨Heart, Five⟩] ⟨0, 0⟩).size +
        (DeckOfCards.mk [] ⟨0, 0⟩).size :=
  ⟨(⟨[⟨Club, Nine⟩], ⟨0, 0⟩⟩, ⟨[], ⟨0, 0⟩⟩,
      ⟨[⟨Heart, Five⟩], ⟨Heart, Five⟩⟩), by decide, by decide⟩

/-- C2 (amended): a successful `takeTurn` call conserves the total card
count over hidden deck + hand + played deck exactly when the played deck's
top card is not the rank-`0` sentinel on entry; when it is the sentinel, the
total decreases by exactly one (the drawn reference card is lost). -/
theorem takeTurn_conservation (rand : Nat → Nat)
    (h p d h' p' d' : DeckOfCards)
    (ht : takeTurn rand h p d = some (h', p', d')) :
    (d.topCard.rank ≠ 0 →
      h'.size + p'.size + d'.size = h.size + p.size + d.size) ∧
    (d.topCard.rank = 0 →
      h'.size + p'.size + d'.size + 1 = h.size + p.size + d.size) := by
  obtain ⟨top, h1, h2, p2, d2, href, hpd, hh', hp', hd'⟩ := takeTurn_destruct ht
  have hres := reshuffleStep_sizes rand h2 d2
  have hpds := playOrDrawStep_sizes hpd
  have hrs := referenceStep_sizes href
  rw [hh', hp', hd']
  constructor
  · intro hns
    obtain ⟨he, _⟩ := hrs.1 hns
    rw [he] at hpds
    omega
  · intro hs
    have := hrs.2 hs
    omega

/-- Witness for C2's amended theorem: a non-sentinel call (top card `5♥`)
conserving the total. -/
theorem takeTurn_conservation_witness :
    takeTurn (fun _ => 0) ⟨[⟨Club, Nine⟩, ⟨Spade, Ace⟩], ⟨0, 0⟩⟩
        ⟨[⟨Club, Two⟩, ⟨Spade, Five⟩], ⟨0, 0⟩⟩
        ⟨[⟨Heart, Five⟩], ⟨Heart, Five⟩⟩
      = some (⟨[⟨Club, Nine⟩, ⟨Spade, Ace⟩], ⟨0, 0⟩⟩,
          ⟨[⟨Club, Two⟩], ⟨0, 0⟩⟩,
          ⟨[⟨Heart, Five⟩, ⟨Spade, Five⟩], ⟨Spade, Five⟩⟩) ∧
    ((⟨Heart, Five⟩ : PlayingCard).rank ≠ 0 →
      (DeckOfCards.mk [⟨Club, Nine⟩, ⟨Spade, Ace⟩] ⟨0, 0⟩).size +
          (DeckOfCards.mk [⟨Club, Two⟩] ⟨0, 0⟩).size +
          (DeckOfCards.mk [⟨Heart, Five⟩, ⟨Spade, Five⟩] ⟨Spade, Five⟩).size =
        (DeckOfCards.mk [⟨Club, Nine⟩, ⟨Spade, Ace⟩] ⟨0, 0⟩).size +
          (DeckOfCards.mk [⟨Club, Two⟩, ⟨Spade, Five⟩] ⟨0, 0⟩).size +
          (DeckOfCards.mk [⟨Heart, Five⟩] ⟨Heart, Five⟩).size) := by
  have hrun : takeTurn (fun _ => 0) ⟨[⟨Club, Nine⟩, ⟨Spade, Ace⟩], ⟨0, 0⟩⟩
      ⟨[⟨Club, Two⟩, ⟨Spade, Five⟩], ⟨0, 0⟩⟩
      ⟨[⟨Heart, Five⟩], ⟨Heart, Five⟩⟩
    = some (⟨[⟨Club, Nine⟩, ⟨Spade, Ace⟩], ⟨0, 0⟩⟩,
        ⟨[⟨Club, Two⟩], ⟨0, 0⟩⟩,
        ⟨[⟨Heart, Five⟩, ⟨Spade, Five⟩], ⟨Spade, Five⟩⟩) := by decide
  exact ⟨hrun,
    (takeTurn_conservation (fun _ => 0) _ _ _ _ _ _ hrun).1⟩

/-- C1 (code bug): the sentinel test `topCard.rank == 0` conflates the empty
sentinel with the genuine rank `Two` (the C enum value of `Two` is `0`).
With a non-empty discard pile whose genuinely played top card is `2♥`, the
code still enters the sentinel branch: it draws `9♣` from the hidden deck as
reference card (the hidden deck shrinks from 2 to 1) instead of matching
against the `2♥` without drawing. -/
theorem takeTurn_draws_despite_real_topCard :
    (DeckOfCards.mk [⟨Club, Five⟩, ⟨Heart, Two⟩] ⟨Heart, Two⟩).cards ≠ [] ∧
    (DeckOfCards.mk [⟨Club, Five⟩, ⟨Heart, Two⟩]
      ⟨Heart, Two⟩).cards.getLast? = some ⟨Heart, Two⟩ ∧
    referenceStep ⟨[⟨Spade, Three⟩, ⟨Club, Nine⟩], ⟨0, 0⟩⟩
        ⟨[⟨Club, Five⟩, ⟨Heart, Two⟩], ⟨Heart, Two⟩⟩
      = some (⟨Club, Nine⟩, ⟨[⟨Spade, Three⟩], ⟨0, 0⟩⟩) ∧
    takeTurn (fun _ => 0) ⟨[⟨Spade, Three⟩, ⟨Club, Nine⟩], ⟨0, 0⟩⟩
        ⟨[⟨Club, Four⟩], ⟨0, 0⟩⟩
        ⟨[⟨Club, Five⟩, ⟨Heart, Two⟩], ⟨Heart, Two⟩⟩
      = some (⟨[⟨Spade, Three⟩], ⟨0, 0⟩⟩, ⟨[], ⟨0, 0⟩⟩,
          ⟨[⟨Club, Five⟩, ⟨Heart, Two⟩, ⟨Club, Four⟩], ⟨Club, Four⟩⟩) := by
  refine ⟨by decide, by decide, by decide, by decide⟩

theorem playOrDrawStep_cases {h p d : DeckOfCards} {top : PlayingCard}
    {h2 p2 d2 : DeckOfCards}
    (hpd : playOrDrawStep h p d top = some (h2, p2, d2)) :
    (∃ i c, scanHand top p.cards = some (i, c) ∧ h2 = h ∧
      p2 = { p with cards := p.cards.eraseIdx i } ∧
      d2 = { d with cards := d.cards ++ [c], topCard := c }) ∨
    (∃ c, scanHand top p.cards = none ∧ drawCard h = some (c, h2) ∧
      p2 = addCardToDeck p c ∧ d2 = d) := by
  unfold playOrDrawStep at hpd
  cases hs : scanHand top p.cards with
  | some ic =>
    rw [hs] at hpd
    refine Or.inl ⟨ic.1, ic.2, rfl, ?_, ?_, ?_⟩ <;> (cases hpd; rfl)
  | none =>
    rw [hs] at hpd
    cases hd : drawCard h with
    | none => rw [hd] at hpd; exact absurd hpd (by simp)
    | some ch =>
      rw [hd] at hpd
      refine Or.inr ⟨ch.1, rfl, ?_, ?_, ?_⟩
      · have h22 : ch.2 = h2 := by cases hpd; rfl
        rw [← h22]
      · cases hpd; rfl
      · cases hpd; rfl

/-- C4: in a `takeTurn` call whose draw/play step leaves the hidden deck
empty, the reshuffle moves the entire played pile (a card played this turn
included) into the hidden deck in order and shuffles it, the played pile
becomes empty with its `topCard` rank reset to the sentinel `0`, and the
hidden deck ends with exactly the card count the played pile held. -/
theorem takeTurn_reshuffle_spec (rand : Nat → Nat)
    (h p d h' p' d' : DeckOfCards) (top : PlayingCard)
    (h1 h2 p2 d2 : DeckOfCards)
    (ht : takeTurn rand h p d = some (h', p', d'))
    (href : referenceStep h d = some (top, h1))
    (hpd : playOrDrawStep h1 p d top = some (h2, p2, d2))
    (hempty : h2.cards = []) :
    h'.cards = (shuffleDeck rand { h2 with cards := d2.cards }).cards ∧
    List.Perm h'.cards d2.cards ∧
    h'.size = d2.size ∧
    d'.cards = [] ∧
    d'.topCard.rank = 0 := by
  obtain ⟨top', h1', h2', p2', d2', href', hpd', hh', hp', hd'⟩ :=
    takeTurn_destruct ht
  rw [href] at href'
  injection href' with e
  injection e with et eh
  subst et
  subst eh
  rw [hpd] at hpd'
  injection hpd' with e2
  injection e2 with ea eb
  injection eb with eb ec
  subst ea
  subst eb
  subst ec
  have hlen : h2.cards.length = 0 := by rw [hempty]; rfl
  have hr : reshuffleStep rand h2 d2 =
      (shuffleDeck rand { h2 with cards := d2.cards },
        { d2 with
          cards := []
          topCard := { d2.topCard with rank := 0 } }) := by
    unfold reshuffleStep
    rw [if_pos hlen]
  rw [hh', hd', hr]
  refine ⟨rfl, ?_, ?_, rfl, rfl⟩
  · exact fisherYates_perm rand (d2.cards.length - 1) d2.cards
  · exact (fisherYates_perm rand (d2.cards.length - 1) d2.cards).length_eq

/-- Witness for C4: the hidden deck holds one card, a draw empties it, and
the one-card played pile `[5♠]` is recycled into the hidden deck. -/
theorem takeTurn_reshuffle_spec_witness :
    takeTurn (fun _ => 0) ⟨[⟨Heart, Four⟩], ⟨0, 0⟩⟩
        ⟨[⟨Diamond, Nine⟩], ⟨0, 0⟩⟩ ⟨[⟨Spade, Five⟩], ⟨Spade, Five⟩⟩
      = some (⟨[⟨Spade, Five⟩], ⟨0, 0⟩⟩,
          ⟨[⟨Diamond, Nine⟩, ⟨Heart, Four⟩], ⟨0, 0⟩⟩,
          ⟨[], ⟨Spade, 0⟩⟩) ∧
    referenceStep ⟨[⟨Heart, Four⟩], ⟨0, 0⟩⟩ ⟨[⟨Spade, Five⟩], ⟨Spade, Five⟩⟩
      = some (⟨Spade, Five⟩, ⟨[⟨Heart, Four⟩], ⟨0, 0⟩⟩) ∧
    playOrDrawStep ⟨[⟨Heart, Four⟩], ⟨0, 0⟩⟩ ⟨[⟨Diamond, Nine⟩], ⟨0, 0⟩⟩
        ⟨[⟨Spade, Five⟩], ⟨Spade, Five⟩⟩ ⟨Spade, Five⟩
      = some (⟨[], ⟨0, 0⟩⟩, ⟨[⟨Diamond, Nine⟩, ⟨Heart, Four⟩], ⟨0, 0⟩⟩,
          ⟨[⟨Spade, Five⟩], ⟨Spade, Five⟩⟩) ∧
    (DeckOfCards.mk ([] : List PlayingCard) ⟨0, 0⟩).cards = [] ∧
    ((DeckOfCards.mk [⟨Spade, Five⟩] ⟨0, 0⟩).cards =
        (shuffleDeck (fun _ => 0)
          ⟨[⟨Spade, Five⟩], ⟨0, 0⟩⟩).cards ∧
      List.Perm (DeckOfCards.mk [⟨Spade, Five⟩] ⟨0, 0⟩).cards
        (DeckOfCards.mk [⟨Spade, Five⟩] ⟨Spade, Five⟩).cards ∧
      (DeckOfCards.mk [⟨Spade, Five⟩] ⟨0, 0⟩).size =
        (DeckOfCards.mk [⟨Spade, Five⟩] ⟨Spade, Five⟩).size ∧
      (DeckOfCards.mk ([] : List PlayingCard) ⟨Spade, 0⟩).cards = [] ∧
      (DeckOfCards.mk ([] : List PlayingCard) ⟨Spade, 0⟩).topCard.rank = 0) := by
  refine ⟨by decide, by decide, by decide, by decide, ?_⟩
  exact takeTurn_reshuffle_spec (fun _ => 0)
    ⟨[⟨Heart, Four⟩], ⟨0, 0⟩⟩ ⟨[⟨Diamond, Nine⟩], ⟨0, 0⟩⟩
    ⟨[⟨Spade, Five⟩], ⟨Spade, Five⟩⟩
    ⟨[⟨Spade, Five⟩], ⟨0, 0⟩⟩ ⟨[⟨Diamond, Nine⟩, ⟨Heart, Four⟩], ⟨0, 0⟩⟩
    ⟨[], ⟨Spade, 0⟩⟩ ⟨Spade, Five⟩
    ⟨[⟨Heart, Four⟩], ⟨0, 0⟩⟩ ⟨[], ⟨0, 0⟩⟩
    ⟨[⟨Diamond, Nine⟩, ⟨Heart, Four⟩], ⟨0, 0⟩⟩
    ⟨[⟨Spade, Five⟩], ⟨Spade, Five⟩⟩
    (by decide) (by decide) (by decide) (by decide)

/-- C10: a successful `takeTurn` call changes the current player's hand size
by exactly one: it shrinks by one exactly when a card playable on the
reference card exists in the hand, grows by one otherwise, and hence the
hand can only reach size zero through a successful play. -/
theorem takeTurn_hand_delta (rand : Nat → Nat)
    (h p d h' p' d' : DeckOfCards) (top : PlayingCard) (h1 : DeckOfCards)
    (ht : takeTurn rand h p d = some (h', p', d'))
    (href : referenceStep h d = some (top, h1)) :
    ((∃ c ∈ p.cards, canPlayCard c top = true) → p'.size + 1 = p.size) ∧
    ((∀ c ∈ p.cards, canPlayCard c top = false) → p'.size = p.size + 1) ∧
    (p'.size = 0 → ∃ c ∈ p.cards, canPlayCard c top = true) := by
  obtain ⟨top', h1', h2, p2, d2, href', hpd, _, hp', _⟩ := takeTurn_destruct ht
  rw [href] at href'
  injection href' with e
  injection e with et eh
  subst et
  subst eh
  rcases playOrDrawStep_cases hpd with
    ⟨i, c, hscan, _, hp2, _⟩ | ⟨c, hscan, _, hp2, _⟩
  · obtain ⟨hget, hplay, _⟩ := scanHand_some_spec top p.cards i c hscan
    have hmem : c ∈ p.cards := List.get?_mem hget
    have hlt : i < p.cards.length := (List.get?_eq_some.mp hget).1
    have hsize : p'.size + 1 = p.size := by
      rw [hp', hp2]
      show (p.cards.eraseIdx i).length + 1 = p.cards.length
      rw [List.length_eraseIdx_of_lt hlt]
      omega
    refine ⟨fun _ => hsize, fun hall => ?_, fun _ => ⟨c, hmem, hplay⟩⟩
    rw [hall c hmem] at hplay
    exact absurd hplay (by simp)
  · have hall := (scanHand_none_iff top p.cards).mp hscan
    have hsize : p'.size = p.size + 1 := by
      rw [hp', hp2]
      show (p.cards ++ [c]).length = p.cards.length + 1
      rw [List.length_append]
      rfl
    refine ⟨fun hex => ?_, fun _ => hsize, fun hzero => ?_⟩
    · obtain ⟨c', hmem', hplay'⟩ := hex
      rw [hall c' hmem'] at hplay'
      exact absurd hplay' (by simp)
    · rw [hsize] at hzero
      exact absurd hzero (by simp)

/-- Witness for C10: the hand `[2♣, 5♠]` facing top card `5♥` shrinks from
two cards to one. -/
theorem takeTurn_hand_delta_witness :
    takeTurn (fun _ => 0) ⟨[⟨Club, Nine⟩, ⟨Diamond, Ace⟩], ⟨0, 0⟩⟩
        ⟨[⟨Club, Two⟩, ⟨Spade, Five⟩], ⟨0, 0⟩⟩
        ⟨[⟨Heart, Five⟩], ⟨Heart, Five⟩⟩
      = some (⟨[⟨Club, Nine⟩, ⟨Diamond, Ace⟩], ⟨0, 0⟩⟩,
          ⟨[⟨Club, Two⟩], ⟨0, 0⟩⟩,
          ⟨[⟨Heart, Five⟩, ⟨Spade, Five⟩], ⟨Spade, Five⟩⟩) ∧
    referenceStep ⟨[⟨Club, Nine⟩, ⟨Diamond, Ace⟩], ⟨0, 0⟩⟩
        ⟨[⟨Heart, Five⟩], ⟨Heart, Five⟩⟩
      = some (⟨Heart, Five⟩, ⟨[⟨Club, Nine⟩, ⟨Diamond, Ace⟩], ⟨0, 0⟩⟩) ∧
    ((∃ c ∈ (DeckOfCards.mk [⟨Club, Two⟩, ⟨Spade, Five⟩] ⟨0, 0⟩).cards,
        canPlayCard c ⟨Heart, Five⟩ = true) →
      (DeckOfCards.mk [⟨Club, Two⟩] ⟨0, 0⟩).size + 1 =
        (DeckOfCards.mk [⟨Club, Two⟩, ⟨Spade, Five⟩] ⟨0, 0⟩).size) := by
  refine ⟨by decide, by decide, ?_⟩
  exact (takeTurn_hand_delta (fun _ => 0)
    ⟨[⟨Club, Nine⟩, ⟨Diamond, Ace⟩], ⟨0, 0⟩⟩
    ⟨[⟨Club, Two⟩, ⟨Spade, Five⟩], ⟨0, 0⟩⟩
    ⟨[⟨Heart, Five⟩], ⟨Heart, Five⟩⟩
    ⟨[⟨Club, Nine⟩, ⟨Diamond, Ace⟩], ⟨0, 0⟩⟩
    ⟨[⟨Club, Two⟩], ⟨0, 0⟩⟩
    ⟨[⟨Heart, Five⟩, ⟨Spade, Five⟩], ⟨Spade, Five⟩⟩
    ⟨Heart, Five⟩ ⟨[⟨Club, Nine⟩, ⟨Diamond, Ace⟩], ⟨0, 0⟩⟩
    (by decide) (by decide)).1

/-! ### The `topCard` cache invariant (C5) -/

theorem takeTurn_preserves_topCard {rand : Nat → Nat}
    {h p d h' p' d' : DeckOfCards}
    (ht : takeTurn rand h p d = some (h', p', d'))
    (hinv_empty : d.cards = [] → d.topCard.rank = 0)
    (hinv_last : d.cards ≠ [] → d.cards.getLast? = some d.topCard) :
    (d'.cards = [] → d'.topCard.rank = 0) ∧
    (d'.cards ≠ [] → d'.cards.getLast? = some d'.topCard) := by
  obtain ⟨top, h1, h2, p2, d2, href, hpd, hh', hp', hd'⟩ := takeTurn_destruct ht
  have hd2 : (d2.cards = [] → d2.topCard.rank = 0) ∧
      (d2.cards ≠ [] → d2.cards.getLast? = some d2.topCard) := by
    rcases playOrDrawStep_cases hpd with
      ⟨i, c, _, _, _, hd2⟩ | ⟨c, _, _, _, hd2⟩
    · rw [hd2]
      constructor
      · intro hc
        exact absurd hc (by simp)
      · intro _
        exact List.getLast?_concat d.cards
    · rw [hd2]
      exact ⟨hinv_empty, hinv_last⟩
  rw [hd']
  unfold reshuffleStep
  by_cases he : h2.cards.length = 0
  · rw [if_pos he]
    constructor
    · intro _
      rfl
    · intro hc
      exact absurd rfl hc
  · rw [if_neg he]
    exact hd2

theorem gameStep_preserves_topCardInvariant {rand : Nat → Nat}
    {s s' : GameState} (hstep : gameStep rand s = some s')
    (hinv : topCardInvariant s) : topCardInvariant s' := by
  unfold gameStep at hstep
  cases hcp : s.currentPlayer with
  | PlayerOne =>
    rw [hcp] at hstep
    cases htt : takeTurn rand s.hiddenDeck s.player1 s.playedDeck with
    | none => rw [htt] at hstep; exact absurd hstep (by simp)
    | some t =>
      rw [htt] at hstep
      have hs' : s' = { s with
          hiddenDeck := t.1
          player1 := t.2.1
          playedDeck := t.2.2
          currentPlayer := PlayerTurn.PlayerTwo } := by
        cases hstep
        rfl
      have := @takeTurn_preserves_topCard rand s.hiddenDeck s.player1
        s.playedDeck t.1 t.2.1 t.2.2 htt hinv.1 hinv.2
      rw [hs']
      exact this
  | PlayerTwo =>
    rw [hcp] at hstep
    cases htt : takeTurn rand s.hiddenDeck s.player2 s.playedDeck with
    | none => rw [htt] at hstep; exact absurd hstep (by simp)
    | some t =>
      rw [htt] at hstep
      have hs' : s' = { s with
          hiddenDeck := t.1
          player2 := t.2.1
          playedDeck := t.2.2
          currentPlayer := PlayerTurn.PlayerOne } := by
        cases hstep
        rfl
      have := @takeTurn_preserves_topCard rand s.hiddenDeck s.player2
        s.playedDeck t.1 t.2.1 t.2.2 htt hinv.1 hinv.2
      rw [hs']
      exact this

/-- C5: in every state reachable by `takeTurn` steps from a state satisfying
the cache discipline (in particular from the initial game state, whose
played pile is empty with the rank-`0` sentinel), a non-empty played pile's
`topCard` is its last appended card, and an empty played pile carries the
sentinel. -/
theorem reachable_topCardInvariant (s0 s : GameState)
    (h0 : topCardInvariant s0) (hr : Reachable s0 s) :
    topCardInvariant s := by
  unfold Reachable at hr
  induction hr with
  | refl => exact h0
  | tail _ hbc ih =>
    obtain ⟨rand, hg⟩ := hbc
    exact gameStep_preserves_topCardInvariant hg ih

/-- Witness for C5 at a concrete in-sync state (played pile `[5♥]` with
cached top `5♥`), reachable from itself in zero steps. -/
theorem reachable_topCardInvariant_witness :
    topCardInvariant ⟨⟨[⟨Club, Nine⟩], ⟨0, 0⟩⟩, ⟨[⟨Heart, Four⟩], ⟨0, 0⟩⟩,
        ⟨[⟨Spade, Ace⟩], ⟨0, 0⟩⟩, ⟨[⟨Heart, Five⟩], ⟨Heart, Five⟩⟩,
        PlayerTurn.PlayerOne⟩ ∧
    Reachable
      ⟨⟨[⟨Club, Nine⟩], ⟨0, 0⟩⟩, ⟨[⟨Heart, Four⟩], ⟨0, 0⟩⟩,
        ⟨[⟨Spade, Ace⟩], ⟨0, 0⟩⟩, ⟨[⟨Heart, Five⟩], ⟨Heart, Five⟩⟩,
        PlayerTurn.PlayerOne⟩
      ⟨⟨[⟨Club, Nine⟩], ⟨0, 0⟩⟩, ⟨[⟨Heart, Four⟩], ⟨0, 0⟩⟩,
        ⟨[⟨Spade, Ace⟩], ⟨0, 0⟩⟩, ⟨[⟨Heart, Five⟩], ⟨Heart, Five⟩⟩,
        PlayerTurn.PlayerOne⟩ ∧
    topCardInvariant ⟨⟨[⟨Club, Nine⟩], ⟨0, 0⟩⟩, ⟨[⟨Heart, Four⟩], ⟨0, 0⟩⟩,
        ⟨[⟨Spade, Ace⟩], ⟨0, 0⟩⟩, ⟨[⟨Heart, Five⟩], ⟨Heart, Five⟩⟩,
        PlayerTurn.PlayerOne⟩ :=
  ⟨by decide, Relation.ReflTransGen.refl,
    reachable_topCardInvariant _ _ (by decide) Relation.ReflTransGen.refl⟩

end CardGame
